import Mathlib

/-!
Shallow embedding of the order/fill hashing and EIP-712 witness-signing
subsystem of the `init4tech/ts` SDK.

Bytes are modelled as `List Nat` with every entry `< 256`; hex strings of the
TypeScript source (`viem`'s `Hex`) are modelled by their underlying byte
sequences, and TypeScript `bigint` values in `uint256` positions by `Nat`.
`keccak256` comes from the external `viem` library, so every definition that
uses it takes the hash function as an explicit parameter; theorems that need
library guarantees (a keccak digest is 32 bytes) take them as hypotheses.
-/

namespace Ts

/-- Big-endian interpretation of a byte list as an unsigned integer
(models `BigInt("0x" + hex)` on the hex form of the bytes). -/
def bytesToNat (bs : List Nat) : Nat :=
  bs.foldl (fun acc b => acc * 256 + b) 0

/-- Fixed-width big-endian byte serialization of a natural number
(models `n.toString(16).padStart(2*w, "0")` for `n < 256 ^ w`). -/
def natToBytesBE : Nat → Nat → List Nat
  | 0, _ => []
  | w + 1, n => natToBytesBE w (n / 256) ++ [n % 256]

theorem natToBytesBE_length (w n : Nat) : (natToBytesBE w n).length = w := by
  induction w generalizing n with
  | zero => rfl
  | succ w ih => simp [natToBytesBE, ih]

theorem mem_natToBytesBE_lt (w n : Nat) : ∀ b ∈ natToBytesBE w n, b < 256 := by
  induction w generalizing n with
  | zero => simp [natToBytesBE]
  | succ w ih =>
    intro b hb
    simp only [natToBytesBE, List.mem_append, List.mem_singleton] at hb
    rcases hb with h | h
    · exact ih _ _ h
    · exact h ▸ Nat.mod_lt _ (by norm_num)

theorem bytesToNat_foldl (a : Nat) (ys : List Nat) :
    ys.foldl (fun acc b => acc * 256 + b) a = a * 256 ^ ys.length + bytesToNat ys := by
  induction ys generalizing a with
  | nil => simp [bytesToNat]
  | cons y t ih =>
    show List.foldl _ (a * 256 + y) t = _
    rw [ih]
    have hy : bytesToNat (y :: t) = y * 256 ^ t.length + bytesToNat t := by
      show List.foldl _ (0 * 256 + y) t = _
      rw [ih]; ring_nf
    rw [hy]
    simp [List.length_cons, pow_succ]
    ring

theorem bytesToNat_append (xs ys : List Nat) :
    bytesToNat (xs ++ ys) = bytesToNat xs * 256 ^ ys.length + bytesToNat ys := by
  unfold bytesToNat
  rw [List.foldl_append]
  exact bytesToNat_foldl _ ys

theorem bytesToNat_singleton (b : Nat) : bytesToNat [b] = b := by
  simp [bytesToNat]

theorem bytesToNat_natToBytesBE_mod (w n : Nat) :
    bytesToNat (natToBytesBE w n) = n % 256 ^ w := by
  induction w generalizing n with
  | zero => simp [natToBytesBE, bytesToNat, Nat.mod_one]
  | succ w ih =>
    show bytesToNat (natToBytesBE w (n / 256) ++ [n % 256]) = _
    rw [bytesToNat_append, ih, bytesToNat_singleton]
    have h256 : (256 : Nat) ^ (w + 1) = 256 * 256 ^ w := by ring
    rw [h256, Nat.mod_mul]
    simp [List.length_singleton]
    ring

theorem bytesToNat_natToBytesBE (w n : Nat) (h : n < 256 ^ w) :
    bytesToNat (natToBytesBE w n) = n := by
  rw [bytesToNat_natToBytesBE_mod, Nat.mod_eq_of_lt h]

theorem bytesToNat_lt (bs : List Nat) (h : ∀ b ∈ bs, b < 256) :
    bytesToNat bs < 256 ^ bs.length := by
  induction bs with
  | nil => simp [bytesToNat]
  | cons b t ih =>
    have hb : b < 256 := h b (List.mem_cons_self _ _)
    have ht : bytesToNat t < 256 ^ t.length := ih fun x hx => h x (List.mem_cons_of_mem _ hx)
    have hcons : bytesToNat (b :: t) = b * 256 ^ t.length + bytesToNat t := by
      show List.foldl _ (0 * 256 + b) t = _
      rw [bytesToNat_foldl]; ring_nf
    rw [hcons, List.length_cons, pow_succ]
    calc b * 256 ^ t.length + bytesToNat t
        < b * 256 ^ t.length + 256 ^ t.length := by omega
      _ = (b + 1) * 256 ^ t.length := by ring
      _ ≤ 256 * 256 ^ t.length := by
          exact Nat.mul_le_mul_right _ (by omega)
      _ = 256 ^ t.length * 256 := by ring

theorem two_pow_256_eq_256_pow_32 : (2 : Nat) ^ 256 = 256 ^ 32 := by
  have h : (256 : Nat) ^ 32 = (2 ^ 8) ^ 32 := by norm_num
  rw [h, ← pow_mul]

/-! ### Signature canonicalizer (src/signing/hash.ts) -/

/-- secp256k1 curve order, from `SECP256K1_N` in `src/signing/hash.ts`. -/
def SECP256K1_N : Nat :=
  0xfffffffffffffffffffffffffffffffebaaedce6af48a03bbfd25e8cd0364141

/-- Half of the curve order (`SECP256K1_HALF_N = SECP256K1_N / 2n`). -/
def SECP256K1_HALF_N : Nat := SECP256K1_N / 2

/-- Parsed (r, s, v) components of a raw signature. -/
structure RawSig where
  r : Nat
  s : Nat
  v : Nat
deriving DecidableEq

/-- Model of `parseRawSignature`: r is hex chars 0..64 (bytes 0..32),
s is hex chars 64..128 (bytes 32..64), v the trailing byte. -/
def parseRawSignature (sig : List Nat) : RawSig :=
  { r := bytesToNat (sig.take 32)
    s := bytesToNat ((sig.drop 32).take 32)
    v := bytesToNat ((sig.drop 64).take 1) }

/-- Model of `serializeRawSignature`: each component re-padded to its
original width (32 + 32 + 1 bytes). -/
def serializeRawSignature (r s v : Nat) : List Nat :=
  natToBytesBE 32 r ++ natToBytesBE 32 s ++ natToBytesBE 1 v

/-- Model of `normalizeSignature` from `src/signing/hash.ts`: if the parsed
s exceeds half the curve order, replace s by N - s and flip v (27 <-> 28),
otherwise return the input unchanged. -/
def normalizeSignature (sig : List Nat) : List Nat :=
  let p := parseRawSignature sig
  if SECP256K1_HALF_N < p.s then
    serializeRawSignature p.r (SECP256K1_N - p.s) (if p.v = 27 then 28 else 27)
  else
    sig

theorem take_len_append (A B : List Nat) (n : Nat) (h : A.length = n) :
    (A ++ B).take n = A := by
  subst h; exact List.take_left A B

theorem drop_len_append (A B : List Nat) (n : Nat) (h : A.length = n) :
    (A ++ B).drop n = B := by
  subst h; exact List.drop_left A B

theorem natToBytesBE_one (x : Nat) (h : x < 256) : natToBytesBE 1 x = [x] := by
  show natToBytesBE 0 (x / 256) ++ [x % 256] = [x]
  simp [natToBytesBE, Nat.mod_eq_of_lt h]

theorem parse_sig_components (X : List Nat) (s : Nat) (C : List Nat)
    (hX : X.length = 32) (hs : s < 2 ^ 256) :
    parseRawSignature (X ++ natToBytesBE 32 s ++ C) =
      { r := bytesToNat X, s := s, v := bytesToNat (C.take 1) } := by
  have hs' : s < 256 ^ 32 := two_pow_256_eq_256_pow_32 ▸ hs
  have hS : (natToBytesBE 32 s).length = 32 := natToBytesBE_length _ _
  have hXS : (X ++ natToBytesBE 32 s).length = 64 := by
    simp [List.length_append, hX, hS]
  have h1 : (X ++ natToBytesBE 32 s ++ C).take 32 = X := by
    rw [List.append_assoc]; exact take_len_append _ _ _ hX
  have h2 : ((X ++ natToBytesBE 32 s ++ C).drop 32).take 32 = natToBytesBE 32 s := by
    rw [List.append_assoc, drop_len_append _ _ _ hX]
    exact take_len_append _ _ _ hS
  have h3 : (X ++ natToBytesBE 32 s ++ C).drop 64 = C := drop_len_append _ _ _ hXS
  unfold parseRawSignature
  rw [h1, h2, h3, bytesToNat_natToBytesBE _ _ hs']

theorem secp256k1_n_odd : SECP256K1_N = 2 * SECP256K1_HALF_N + 1 := by decide

/-- Claim C3: on a 65-byte signature r (32 bytes) ++ s (32 bytes) ++ v with
v in \x7b27, 28\x7d and s in the valid scalar range, `normalizeSignature`
returns r ++ (N - s) ++ (flipped v) when s exceeds HALF_N, and returns the
input byte-identically when s is at most HALF_N. -/
theorem normalizeSignature_spec (r s v : Nat)
    (hr : r < 2 ^ 256) (hs : s < SECP256K1_N) (hv : v = 27 ∨ v = 28) :
    (SECP256K1_HALF_N < s →
      normalizeSignature (natToBytesBE 32 r ++ natToBytesBE 32 s ++ [v]) =
        natToBytesBE 32 r ++ natToBytesBE 32 (SECP256K1_N - s) ++
          [if v = 27 then 28 else 27]) ∧
    (s ≤ SECP256K1_HALF_N →
      normalizeSignature (natToBytesBE 32 r ++ natToBytesBE 32 s ++ [v]) =
        natToBytesBE 32 r ++ natToBytesBE 32 s ++ [v]) := by
  have hr' : r < 256 ^ 32 := two_pow_256_eq_256_pow_32 ▸ hr
  have hs2 : s < 2 ^ 256 := lt_trans hs (by decide)
  have hparse := parse_sig_components (natToBytesBE 32 r) s [v]
    (natToBytesBE_length _ _) hs2
  have hrr : bytesToNat (natToBytesBE 32 r) = r := bytesToNat_natToBytesBE _ _ hr'
  have hvv : bytesToNat ([v].take 1) = v := by simp [bytesToNat]
  rw [hrr, hvv] at hparse
  constructor
  · intro hgt
    unfold normalizeSignature
    rw [hparse]
    dsimp only
    rw [if_pos hgt]
    unfold serializeRawSignature
    rw [natToBytesBE_one _ (by rcases hv with h | h <;> simp [h])]
  · intro hle
    unfold normalizeSignature
    rw [hparse]
    dsimp only
    rw [if_neg (not_lt.mpr hle)]

/-- Witness for Claim C3: a concrete high-S signature is flipped to
r ++ (N - s) ++ 28, and a concrete low-S signature is returned unchanged. -/
theorem normalizeSignature_spec_witness :
    (SECP256K1_HALF_N < SECP256K1_N - 1 ∧
      normalizeSignature
          (natToBytesBE 32 1 ++ natToBytesBE 32 (SECP256K1_N - 1) ++ [27]) =
        natToBytesBE 32 1 ++ natToBytesBE 32 (SECP256K1_N - (SECP256K1_N - 1)) ++ [28]) ∧
    ((2 : Nat) ≤ SECP256K1_HALF_N ∧
      normalizeSignature (natToBytesBE 32 1 ++ natToBytesBE 32 2 ++ [28]) =
        natToBytesBE 32 1 ++ natToBytesBE 32 2 ++ [28]) := by
  constructor
  · refine ⟨by decide, ?_⟩
    have h := (normalizeSignature_spec 1 (SECP256K1_N - 1) 27
      (by decide) (by decide) (Or.inl rfl)).1 (by decide)
    simpa using h
  · refine ⟨by decide, ?_⟩
    exact (normalizeSignature_spec 1 2 28
      (by decide) (by decide) (Or.inr rfl)).2 (by decide)

/-- Claim C4: signature canonicalization is idempotent; the s-component
precondition is the valid scalar range the spec assigns to signatures. -/
theorem normalizeSignature_idem (sig : List Nat)
    (hs : (parseRawSignature sig).s ≤ SECP256K1_N) :
    normalizeSignature (normalizeSignature sig) = normalizeSignature sig := by
  by_cases h : SECP256K1_HALF_N < (parseRawSignature sig).s
  · have hstep : normalizeSignature sig =
        natToBytesBE 32 (parseRawSignature sig).r ++
          natToBytesBE 32 (SECP256K1_N - (parseRawSignature sig).s) ++
          natToBytesBE 1 (if (parseRawSignature sig).v = 27 then 28 else 27) := by
      unfold normalizeSignature serializeRawSignature
      rw [if_pos h]
    have hsub : SECP256K1_N - (parseRawSignature sig).s < 2 ^ 256 := by
      have : SECP256K1_N < 2 ^ 256 := by decide
      omega
    have hparse := parse_sig_components (natToBytesBE 32 (parseRawSignature sig).r)
      (SECP256K1_N - (parseRawSignature sig).s)
      (natToBytesBE 1 (if (parseRawSignature sig).v = 27 then 28 else 27))
      (natToBytesBE_length _ _) hsub
    have hle : ¬ SECP256K1_HALF_N < SECP256K1_N - (parseRawSignature sig).s := by
      have hodd := secp256k1_n_odd
      omega
    conv_lhs => rw [hstep]
    unfold normalizeSignature
    rw [hparse]
    dsimp only
    rw [if_neg hle, if_pos h]
    rfl
  · have hstep : normalizeSignature sig = sig := by
      unfold normalizeSignature
      dsimp only
      rw [if_neg h]
    rw [hstep, hstep]

/-- Witness for Claim C4: idempotence applied to a concrete high-S
signature. -/
theorem normalizeSignature_idem_witness :
    (parseRawSignature (natToBytesBE 32 1 ++ natToBytesBE 32 (SECP256K1_N - 1) ++ [27])).s
        ≤ SECP256K1_N ∧
    normalizeSignature (normalizeSignature
        (natToBytesBE 32 1 ++ natToBytesBE 32 (SECP256K1_N - 1) ++ [27])) =
      normalizeSignature (natToBytesBE 32 1 ++ natToBytesBE 32 (SECP256K1_N - 1) ++ [27]) := by
  refine ⟨by decide, ?_⟩
  exact normalizeSignature_idem _ (by decide)

/-! ### Data model (src/types/primitives.ts, src/types/order.ts) -/

/-- One leg of a Permit2 batch transfer authorization. Addresses are
modelled by their 160-bit integer value. -/
structure TokenPermissions where
  token : Nat
  amount : Nat
deriving DecidableEq

/-- A desired delivery: token, quantity, destination account and chain. -/
structure Output where
  token : Nat
  amount : Nat
  recipient : Nat
  chainId : Nat
deriving DecidableEq

/-- The Permit2 authorization body. -/
structure PermitBatchTransferFrom where
  permitted : List TokenPermissions
  nonce : Nat
  deadline : Nat
deriving DecidableEq

/-- A Permit2 authorization plus the authorizing signature (65 raw bytes). -/
structure Permit2Batch where
  permit : PermitBatchTransferFrom
  owner : Nat
  signature : List Nat
deriving DecidableEq

/-- Maker-side signed artifact. -/
structure SignedOrder where
  permit : Permit2Batch
  outputs : List Output
deriving DecidableEq

/-- Filler-side signed artifact; structurally identical to `SignedOrder`. -/
structure SignedFill where
  permit : Permit2Batch
  outputs : List Output
deriving DecidableEq

/-! ### ABI head encoding for the fixed schemas of src/signing/hash.ts -/

/-- One 32-byte ABI slot holding a left-padded big-endian value; used for
`uint256`, `address` and `uint32` heads alike. -/
def abiWord (n : Nat) : List Nat := natToBytesBE 32 n

theorem abiWord_length (n : Nat) : (abiWord n).length = 32 :=
  natToBytesBE_length 32 n

/-- Static tuple `(address token, uint256 amount)`: two slots in place. -/
def encTokenPermissions (p : TokenPermissions) : List Nat :=
  abiWord p.token ++ abiWord p.amount

/-- Model of `encodeAbiParameters(PERMIT_BATCH_TRANSFER_FROM_ABI, [permit])`:
one dynamic tuple parameter, so a `0x20` offset, then the tuple head (a
`0x60` offset to the `permitted` array, `nonce`, `deadline`), then the
length-prefixed array of static `(address, uint256)` elements. -/
def abiEncodePermitBatchTransferFrom (p : PermitBatchTransferFrom) : List Nat :=
  abiWord 32 ++ abiWord 96 ++ abiWord p.nonce ++ abiWord p.deadline ++
    abiWord p.permitted.length ++ (p.permitted.map encTokenPermissions).flatten

/-- Model of `encodeAbiParameters(ADDRESS_ABI, [owner])`: a single static
slot. -/
def abiEncodeAddress (a : Nat) : List Nat := abiWord a

/-- Static tuple `(address, uint256, address, uint32)`: four slots. -/
def encOutputTuple (o : Output) : List Nat :=
  abiWord o.token ++ abiWord o.amount ++ abiWord o.recipient ++ abiWord o.chainId

/-- Model of `encodeAbiParameters(OUTPUTS_ABI, [outputs])`: one dynamic
array parameter, so a `0x20` offset, the array length, then the static
4-slot elements in place. -/
def abiEncodeOutputs (outs : List Output) : List Nat :=
  abiWord 32 ++ abiWord outs.length ++ (outs.map encOutputTuple).flatten

/-! ### Order/fill hash engine (src/signing/hash.ts)

`keccak256` is supplied by the external `viem` library, so it is passed
explicitly to every definition that uses it. -/

/-- Model of `orderHashPreImage`: four concatenated keccak256 digests.
The signature digest is over the canonicalized raw 65 bytes with no ABI
encoding wrapper. -/
def orderHashPreImage (keccak : List Nat → List Nat) (o : SignedOrder) : List Nat :=
  keccak (abiEncodePermitBatchTransferFrom o.permit.permit) ++
    keccak (abiEncodeAddress o.permit.owner) ++
    keccak (abiEncodeOutputs o.outputs) ++
    keccak (normalizeSignature o.permit.signature)

/-- Model of `orderHash`: keccak256 of the pre-image. -/
def orderHash (keccak : List Nat → List Nat) (o : SignedOrder) : List Nat :=
  keccak (orderHashPreImage keccak o)

/-! ### EIP-712 hasher (eip712 module, src/unnamed/part_006) -/

/-- UTF-8 encoding of a single Unicode code point, as a byte list
(models `TextEncoder().encode` / `viem`'s `toBytes` on strings). -/
def utf8EncodeCharNat (c : Nat) : List Nat :=
  if c < 0x80 then [c]
  else if c < 0x800 then [0xC0 + c / 64, 0x80 + c % 64]
  else if c < 0x10000 then
    [0xE0 + c / 4096, 0x80 + (c / 64) % 64, 0x80 + c % 64]
  else
    [0xF0 + c / 0x40000, 0x80 + (c / 4096) % 64, 0x80 + (c / 64) % 64, 0x80 + c % 64]

/-- UTF-8 bytes of a string. -/
def utf8Bytes (s : String) : List Nat :=
  s.data.flatMap (fun ch => utf8EncodeCharNat ch.toNat)

/-- The canonical Permit2 contract address (src/constants/permit2.ts). -/
def PERMIT2_ADDRESS : Nat := 0x000000000022D473030F116dDEE9F6B43aC78BA3

/-- The Permit2 domain name (src/constants/permit2.ts). -/
def PERMIT2_NAME : String := "Permit2"

/-- Domain type string: name, chainId, verifyingContract only — no version
and no salt field. -/
def EIP712_DOMAIN_TYPE_STRING : String :=
  "EIP712Domain(string name,uint256 chainId,address verifyingContract)"

/-- Model of `EIP712_DOMAIN_TYPE_HASH`. -/
def EIP712_DOMAIN_TYPE_HASH (keccak : List Nat → List Nat) : List Nat :=
  keccak (utf8Bytes EIP712_DOMAIN_TYPE_STRING)

/-- Model of `permit2DomainSeparator`: keccak256 of the four static slots
(domain type hash, name hash, chainId, verifying contract). -/
def permit2DomainSeparator (keccak : List Nat → List Nat) (chainId : Nat) : List Nat :=
  keccak (EIP712_DOMAIN_TYPE_HASH keccak ++ keccak (utf8Bytes PERMIT2_NAME) ++
    abiWord chainId ++ abiWord PERMIT2_ADDRESS)

/-- Witness-extended primary type string, with the appended nested-type
definitions in EIP-712 order. -/
def PBWTF_TYPE_STRING : String :=
  "PermitBatchWitnessTransferFrom(TokenPermissions[] permitted,address spender,uint256 nonce,uint256 deadline,Output[] outputs)Output(address token,uint256 amount,address recipient,uint32 chainId)TokenPermissions(address token,uint256 amount)"

/-- TokenPermissions type string. -/
def TOKEN_PERMISSIONS_TYPE_STRING : String :=
  "TokenPermissions(address token,uint256 amount)"

/-- Output type string. -/
def OUTPUT_TYPE_STRING : String :=
  "Output(address token,uint256 amount,address recipient,uint32 chainId)"

/-- Model of `hashTokenPermissions`: keccak256 of (type hash, token,
amount) slots. -/
def hashTokenPermissions (keccak : List Nat → List Nat) (p : TokenPermissions) : List Nat :=
  keccak (keccak (utf8Bytes TOKEN_PERMISSIONS_TYPE_STRING) ++
    abiWord p.token ++ abiWord p.amount)

/-- Model of `hashTokenPermissionsArray`: keccak256 of the concatenation of
the item struct hashes, with no length prefix. -/
def hashTokenPermissionsArray (keccak : List Nat → List Nat)
    (ps : List TokenPermissions) : List Nat :=
  keccak ((ps.map (hashTokenPermissions keccak)).flatten)

/-- Model of `hashOutput`: keccak256 of (type hash, token, amount,
recipient, chainId) slots. -/
def hashOutput (keccak : List Nat → List Nat) (o : Output) : List Nat :=
  keccak (keccak (utf8Bytes OUTPUT_TYPE_STRING) ++ abiWord o.token ++
    abiWord o.amount ++ abiWord o.recipient ++ abiWord o.chainId)

/-- Model of `hashOutputArray`. -/
def hashOutputArray (keccak : List Nat → List Nat) (outs : List Output) : List Nat :=
  keccak ((outs.map (hashOutput keccak)).flatten)

/-- Parameters of the EIP-712 signing-hash computation. -/
structure Eip712SigningParams where
  chainId : Nat
  orderContract : Nat
  permitted : List TokenPermissions
  nonce : Nat
  deadline : Nat
  outputs : List Output
deriving DecidableEq

/-- Model of `permitBatchWitnessStructHash`. -/
def permitBatchWitnessStructHash (keccak : List Nat → List Nat)
    (params : Eip712SigningParams) : List Nat :=
  keccak (keccak (utf8Bytes PBWTF_TYPE_STRING) ++
    hashTokenPermissionsArray keccak params.permitted ++
    abiWord params.orderContract ++ abiWord params.nonce ++
    abiWord params.deadline ++ hashOutputArray keccak params.outputs)

/-- Model of `eip712SigningHash`: keccak256 of 0x1901, the domain
separator and the struct hash. -/
def eip712SigningHash (keccak : List Nat → List Nat)
    (params : Eip712SigningParams) : List Nat :=
  keccak ([0x19, 0x01] ++ permit2DomainSeparator keccak params.chainId ++
    permitBatchWitnessStructHash keccak params)

theorem flatten_map_length_32 {α : Type} (l : List α) (f : α → List Nat)
    (h : ∀ x, (f x).length = 32) :
    ((l.map f).flatten).length = 32 * l.length := by
  induction l with
  | nil => simp
  | cons a t ih =>
    simp only [List.map_cons, List.flatten_cons, List.length_append, h, ih,
      List.length_cons]
    ring

theorem normalizeSignature_length (sig : List Nat) (h : sig.length = 65) :
    (normalizeSignature sig).length = 65 := by
  unfold normalizeSignature
  dsimp only
  split
  · simp [serializeRawSignature, List.length_append, natToBytesBE_length]
  · exact h

/-- A concrete 32-byte-digest function standing in for keccak256 in
witnesses (the library guarantee the theorems assume is that digests are
32 bytes). -/
def testKeccak (bs : List Nat) : List Nat := natToBytesBE 32 (bytesToNat bs)

theorem testKeccak_length (bs : List Nat) : (testKeccak bs).length = 32 :=
  natToBytesBE_length 32 (bytesToNat bs)

theorem testKeccak_bytes_lt (bs : List Nat) : ∀ b ∈ testKeccak bs, b < 256 :=
  mem_natToBytesBE_lt 32 (bytesToNat bs)

/-- Claim C1: for every signed order, `orderHash` is keccak256 of the
128-byte pre-image formed by concatenating the permit tuple-encoding hash,
the owner encoding hash, the outputs encoding hash, and the hash of the
canonicalized signature's raw 65 bytes (no ABI wrapper). -/
theorem orderHash_spec (keccak : List Nat → List Nat)
    (hk : ∀ bs, (keccak bs).length = 32) (o : SignedOrder) :
    orderHash keccak o = keccak (orderHashPreImage keccak o) ∧
    orderHashPreImage keccak o =
      keccak (abiEncodePermitBatchTransferFrom o.permit.permit) ++
        keccak (abiEncodeAddress o.permit.owner) ++
        keccak (abiEncodeOutputs o.outputs) ++
        keccak (normalizeSignature o.permit.signature) ∧
    (orderHashPreImage keccak o).length = 128 ∧
    (o.permit.signature.length = 65 →
      (normalizeSignature o.permit.signature).length = 65) := by
  refine ⟨rfl, rfl, ?_, normalizeSignature_length _⟩
  unfold orderHashPreImage
  simp [List.length_append, hk]

/-- A concrete order used by witnesses: one permitted token, one output,
an all-zero 65-byte signature. -/
def sampleOrder : SignedOrder :=
  ⟨⟨⟨[⟨1, 2⟩], 3, 4⟩, 5, List.replicate 65 0⟩, [⟨1, 2, 6, 7⟩]⟩

/-- Witness for Claim C1 at a concrete order and a concrete 32-byte hash
function. -/
theorem orderHash_spec_witness :
    (orderHashPreImage testKeccak sampleOrder).length = 128 ∧
    sampleOrder.permit.signature.length = 65 ∧
    (normalizeSignature sampleOrder.permit.signature).length = 65 := by
  have h := orderHash_spec testKeccak testKeccak_length sampleOrder
  exact ⟨h.2.2.1, by decide, h.2.2.2 (by decide)⟩

/-- Claim C2: the EIP-712 signing hash is keccak256 of 0x1901, the domain
separator and the struct hash; the domain separator pre-image holds exactly
the four slots (domain type hash, keccak of "Permit2", chainId, canonical
Permit2 contract) with no version or salt; the struct hash encodes the six
slots with `hashArray` being keccak256 of the plain concatenation of item
struct hashes, with no length prefix. -/
theorem eip712SigningHash_spec (keccak : List Nat → List Nat)
    (hk : ∀ bs, (keccak bs).length = 32) (params : Eip712SigningParams) :
    eip712SigningHash keccak params =
      keccak ([0x19, 0x01] ++ permit2DomainSeparator keccak params.chainId ++
        permitBatchWitnessStructHash keccak params) ∧
    permit2DomainSeparator keccak params.chainId =
      keccak (EIP712_DOMAIN_TYPE_HASH keccak ++ keccak (utf8Bytes PERMIT2_NAME) ++
        abiWord params.chainId ++ abiWord PERMIT2_ADDRESS) ∧
    (EIP712_DOMAIN_TYPE_HASH keccak ++ keccak (utf8Bytes PERMIT2_NAME) ++
        abiWord params.chainId ++ abiWord PERMIT2_ADDRESS).length = 128 ∧
    permitBatchWitnessStructHash keccak params =
      keccak (keccak (utf8Bytes PBWTF_TYPE_STRING) ++
        hashTokenPermissionsArray keccak params.permitted ++
        abiWord params.orderContract ++ abiWord params.nonce ++
        abiWord params.deadline ++ hashOutputArray keccak params.outputs) ∧
    hashTokenPermissionsArray keccak params.permitted =
      keccak ((params.permitted.map (hashTokenPermissions keccak)).flatten) ∧
    ((params.permitted.map (hashTokenPermissions keccak)).flatten).length =
      32 * params.permitted.length ∧
    hashOutputArray keccak params.outputs =
      keccak ((params.outputs.map (hashOutput keccak)).flatten) ∧
    ((params.outputs.map (hashOutput keccak)).flatten).length =
      32 * params.outputs.length := by
  refine ⟨rfl, rfl, ?_, rfl, rfl, ?_, rfl, ?_⟩
  · unfold EIP712_DOMAIN_TYPE_HASH
    simp [List.length_append, hk, abiWord_length]
  · exact flatten_map_length_32 _ _ fun x => hk _
  · exact flatten_map_length_32 _ _ fun x => hk _

/-- Concrete signing parameters used by the Claim C2 witness. -/
def sampleParams : Eip712SigningParams :=
  ⟨14174, 9, [⟨1, 2⟩, ⟨3, 4⟩], 11, 12, []⟩

/-- Witness for Claim C2 at concrete signing parameters and a concrete
32-byte hash function. -/
theorem eip712SigningHash_spec_witness :
    (EIP712_DOMAIN_TYPE_HASH testKeccak ++ testKeccak (utf8Bytes PERMIT2_NAME) ++
        abiWord sampleParams.chainId ++ abiWord PERMIT2_ADDRESS).length = 128 ∧
    ((sampleParams.permitted.map (hashTokenPermissions testKeccak)).flatten).length
      = 32 * sampleParams.permitted.length := by
  have h := eip712SigningHash_spec testKeccak testKeccak_length sampleParams
  exact ⟨h.2.2.1, h.2.2.2.2.2.1⟩

/-! ### Type conversions (src/types/conversions.ts) -/

/-- Model of `toTokenPermissions` restricted to outputs: keep token and
amount. -/
def toTokenPermissions (o : Output) : TokenPermissions :=
  ⟨o.token, o.amount⟩

/-- Model of `toTokenPermissionsArray` on an output list. -/
def toTokenPermissionsArray (outs : List Output) : List TokenPermissions :=
  outs.map toTokenPermissions

/-! ### Signing orchestrator (src/signing/order.ts, src/signing/fill.ts)

External effects are passed explicitly: `rand` is the value `randomNonce()`
would draw, `now` the current unix time in seconds, `owner` the resolved
signing account's address and `signature` the external signer's output. -/

/-- Chain configuration (src/types/order.ts). -/
structure ChainConfig where
  orderContract : Nat
  chainId : Nat
deriving DecidableEq

/-- Accumulating state of the `UnsignedOrder` builder; `_deadline` starts
at `0n` in the source. -/
structure UnsignedOrderState where
  inputs : List TokenPermissions
  outputs : List Output
  deadline : Nat
  nonce : Option Nat
  chainId : Option Nat
  orderContract : Option Nat
deriving DecidableEq

/-- Model of `UnsignedOrder.new()`. -/
def UnsignedOrderState.new : UnsignedOrderState :=
  ⟨[], [], 0, none, none, none⟩

/-- Model of `withInput`: push one token permission. -/
def UnsignedOrderState.withInput (b : UnsignedOrderState) (token amount : Nat) :
    UnsignedOrderState :=
  { b with inputs := b.inputs ++ [⟨token, amount⟩] }

/-- Model of `withInputs`: push many token permissions. -/
def UnsignedOrderState.withInputs (b : UnsignedOrderState)
    (ins : List TokenPermissions) : UnsignedOrderState :=
  { b with inputs := b.inputs ++ ins.map (fun p => ⟨p.token, p.amount⟩) }

/-- Model of `withOutput`: push one output. -/
def UnsignedOrderState.withOutput (b : UnsignedOrderState)
    (token amount recipient chainId : Nat) : UnsignedOrderState :=
  { b with outputs := b.outputs ++ [⟨token, amount, recipient, chainId⟩] }

/-- Model of `withOutputs`: push many outputs. -/
def UnsignedOrderState.withOutputs (b : UnsignedOrderState)
    (outs : List Output) : UnsignedOrderState :=
  { b with outputs := b.outputs ++ outs }

/-- Model of `withDeadline`. -/
def UnsignedOrderState.withDeadline (b : UnsignedOrderState) (d : Nat) :
    UnsignedOrderState :=
  { b with deadline := d }

/-- Model of `withNonce`. -/
def UnsignedOrderState.withNonce (b : UnsignedOrderState) (n : Nat) :
    UnsignedOrderState :=
  { b with nonce := some n }

/-- Model of `withChain`. -/
def UnsignedOrderState.withChain (b : UnsignedOrderState) (cfg : ChainConfig) :
    UnsignedOrderState :=
  { b with chainId := some cfg.chainId, orderContract := some cfg.orderContract }

/-- Model of `UnsignedOrder.sign`: fails when the chain is not configured;
otherwise the nonce defaults to `randomNonce()` and the deadline is
whatever the builder field holds (initially 0). -/
def UnsignedOrderState.sign (b : UnsignedOrderState) (rand owner : Nat)
    (signature : List Nat) : Except String SignedOrder :=
  match b.chainId, b.orderContract with
  | some _, some _ =>
    let nonce := b.nonce.getD rand
    let permitted := b.inputs.map (fun p => (⟨p.token, p.amount⟩ : TokenPermissions))
    Except.ok ⟨⟨⟨permitted, nonce, b.deadline⟩, owner, signature⟩, b.outputs⟩
  | _, _ => Except.error "Chain not configured. Call withChain() first."

/-- Accumulating state of the `UnsignedFill` builder; `_deadline` starts
undefined in the source. -/
structure UnsignedFillState where
  outputs : List Output
  deadline : Option Nat
  nonce : Option Nat
  chainId : Option Nat
  orderContract : Option Nat
deriving DecidableEq

/-- Model of `UnsignedFill.new()`. -/
def UnsignedFillState.new : UnsignedFillState :=
  ⟨[], none, none, none, none⟩

/-- Model of `UnsignedFill.withOutputs`. -/
def UnsignedFillState.withOutputs (b : UnsignedFillState) (outs : List Output) :
    UnsignedFillState :=
  { b with outputs := b.outputs ++ outs }

/-- Model of `UnsignedFill.withDeadline`. -/
def UnsignedFillState.withDeadline (b : UnsignedFillState) (d : Nat) :
    UnsignedFillState :=
  { b with deadline := some d }

/-- Model of `UnsignedFill.withNonce`. -/
def UnsignedFillState.withNonce (b : UnsignedFillState) (n : Nat) :
    UnsignedFillState :=
  { b with nonce := some n }

/-- Model of `UnsignedFill.withChain`. -/
def UnsignedFillState.withChain (b : UnsignedFillState) (cfg : ChainConfig) :
    UnsignedFillState :=
  { b with chainId := some cfg.chainId, orderContract := some cfg.orderContract }

/-- Model of `UnsignedFill.sign`: the nonce defaults to `randomNonce()`,
the deadline to 12 seconds from now, and `permitted` is derived from the
outputs via `toTokenPermissionsArray`. -/
def UnsignedFillState.sign (b : UnsignedFillState) (rand now owner : Nat)
    (signature : List Nat) : Except String SignedFill :=
  match b.chainId, b.orderContract with
  | some _, some _ =>
    let nonce := b.nonce.getD rand
    let deadline := b.deadline.getD (now + 12)
    let permitted := toTokenPermissionsArray b.outputs
    Except.ok ⟨⟨⟨permitted, nonce, deadline⟩, owner, signature⟩, b.outputs⟩
  | _, _ => Except.error "Chain not configured. Call withChain() first."

/-! ### Validation (src/signing/validate.ts) -/

/-- Error text of the fill-expired branch. -/
def fillExpiredMessage (deadline now : Nat) : String :=
  "Fill expired: deadline " ++ toString deadline ++ " < now " ++ toString now

/-- Error text of the length-mismatch branch. -/
def lengthMismatchMessage (nOut nPerm : Nat) : String :=
  "Length mismatch: " ++ toString nOut ++ " outputs but " ++ toString nPerm ++
    " permitted tokens"

/-- Error text of the token-mismatch branch; it names the offending
index. -/
def tokenMismatchMessage (i oTok pTok : Nat) : String :=
  "Token mismatch at index " ++ toString i ++ ": output " ++ toString oTok ++
    " != permitted " ++ toString pTok

/-- Error text of the amount-mismatch branch; it names the offending
index. -/
def amountMismatchMessage (i oAmt pAmt : Nat) : String :=
  "Amount mismatch at index " ++ toString i ++ ": output " ++ toString oAmt ++
    " != permitted " ++ toString pAmt

/-- Model of the `outputs.forEach` loop of `validateFill`: compare token
then amount at each index, throwing at the first mismatch. The
outputs-longer case is unreachable behind the length check. -/
def checkOutputsFrom : Nat → List Output → List TokenPermissions →
    Except String Unit
  | _, [], _ => Except.ok ()
  | i, o :: os, p :: ps =>
    if o.token ≠ p.token then
      Except.error (tokenMismatchMessage i o.token p.token)
    else if o.amount ≠ p.amount then
      Except.error (amountMismatchMessage i o.amount p.amount)
    else
      checkOutputsFrom (i + 1) os ps
  | _, _ :: _, [] => Except.ok ()

/-- Model of `validateOrder`: only the deadline is checked. -/
def validateOrder (now : Nat) (o : SignedOrder) : Except String Unit :=
  if o.permit.permit.deadline < now then
    Except.error ("Order expired: deadline " ++ toString o.permit.permit.deadline ++
      " < now " ++ toString now)
  else
    Except.ok ()

/-- Model of `validateFill`: deadline check, then length check, then the
per-index token/amount checks. -/
def validateFill (now : Nat) (fill : SignedFill) : Except String Unit :=
  if fill.permit.permit.deadline < now then
    Except.error (fillExpiredMessage fill.permit.permit.deadline now)
  else if fill.outputs.length ≠ fill.permit.permit.permitted.length then
    Except.error (lengthMismatchMessage fill.outputs.length
      fill.permit.permit.permitted.length)
  else
    checkOutputsFrom 0 fill.outputs fill.permit.permit.permitted

theorem checkOutputsFrom_ok_iff (os : List Output) (ps : List TokenPermissions)
    (i : Nat) (hlen : os.length = ps.length) :
    checkOutputsFrom i os ps = Except.ok () ↔
      ∀ j (hj : j < os.length) (hj' : j < ps.length),
        os[j].token = ps[j].token ∧ os[j].amount = ps[j].amount := by
  induction os generalizing ps i with
  | nil =>
    simp [checkOutputsFrom]
  | cons o os ih =>
    cases ps with
    | nil => simp at hlen
    | cons p ps =>
      have hlen' : os.length = ps.length := by simpa using hlen
      by_cases ht : o.token = p.token
      · by_cases ha : o.amount = p.amount
        · have hstep : checkOutputsFrom i (o :: os) (p :: ps) =
              checkOutputsFrom (i + 1) os ps := by
            simp [checkOutputsFrom, ht, ha]
          rw [hstep, ih ps (i + 1) hlen']
          constructor
          · intro h j hj hj'
            cases j with
            | zero => simpa using ⟨ht, ha⟩
            | succ j =>
              have := h j (by simpa using hj) (by simpa using hj')
              simpa using this
          · intro h j hj hj'
            have := h (j + 1) (by simpa using hj) (by simpa using hj')
            simpa using this
        · constructor
          · intro h
            exact absurd h (by simp [checkOutputsFrom, ht, ha])
          · intro h
            exact absurd (by simpa using (h 0 (by simp) (by simp)).2) ha
      · constructor
        · intro h
          exact absurd h (by simp [checkOutputsFrom, ht])
        · intro h
          exact absurd (by simpa using (h 0 (by simp) (by simp)).1) ht

theorem checkOutputsFrom_token_mismatch (j : Nat) :
    ∀ (os : List Output) (ps : List TokenPermissions) (i : Nat)
      (hj : j < os.length) (hj' : j < ps.length),
      (∀ k (hk : k < j) (hko : k < os.length) (hkp : k < ps.length),
        os[k].token = ps[k].token ∧ os[k].amount = ps[k].amount) →
      os[j].token ≠ ps[j].token →
      checkOutputsFrom i os ps =
        Except.error (tokenMismatchMessage (i + j) os[j].token ps[j].token) := by
  induction j with
  | zero =>
    intro os ps i hj hj' hfirst hmt
    cases os with
    | nil => simp at hj
    | cons o os =>
      cases ps with
      | nil => simp at hj'
      | cons p ps =>
        simp only [List.getElem_cons_zero] at hmt ⊢
        simp [checkOutputsFrom, hmt]
  | succ j ih =>
    intro os ps i hj hj' hfirst hmt
    cases os with
    | nil => simp at hj
    | cons o os =>
      cases ps with
      | nil => simp at hj'
      | cons p ps =>
        have hhead := hfirst 0 (by omega) (by simp) (by simp)
        simp only [List.getElem_cons_zero] at hhead
        have hstep : checkOutputsFrom i (o :: os) (p :: ps) =
            checkOutputsFrom (i + 1) os ps := by
          simp [checkOutputsFrom, hhead.1, hhead.2]
        rw [hstep]
        have hfirst' : ∀ k (hk : k < j) (hko : k < os.length) (hkp : k < ps.length),
            os[k].token = ps[k].token ∧ os[k].amount = ps[k].amount := by
          intro k hk hko hkp
          have := hfirst (k + 1) (by omega) (by simpa using hko) (by simpa using hkp)
          simpa using this
        have := ih os ps (i + 1) (by simpa using hj) (by simpa using hj') hfirst'
          (by simpa using hmt)
        have harith : i + 1 + j = i + (j + 1) := by omega
        rw [harith] at this
        simpa using this

theorem checkOutputsFrom_amount_mismatch (j : Nat) :
    ∀ (os : List Output) (ps : List TokenPermissions) (i : Nat)
      (hj : j < os.length) (hj' : j < ps.length),
      (∀ k (hk : k < j) (hko : k < os.length) (hkp : k < ps.length),
        os[k].token = ps[k].token ∧ os[k].amount = ps[k].amount) →
      os[j].token = ps[j].token →
      os[j].amount ≠ ps[j].amount →
      checkOutputsFrom i os ps =
        Except.error (amountMismatchMessage (i + j) os[j].amount ps[j].amount) := by
  induction j with
  | zero =>
    intro os ps i hj hj' hfirst hmt hma
    cases os with
    | nil => simp at hj
    | cons o os =>
      cases ps with
      | nil => simp at hj'
      | cons p ps =>
        simp only [List.getElem_cons_zero] at hmt hma ⊢
        simp [checkOutputsFrom, hmt, hma]
  | succ j ih =>
    intro os ps i hj hj' hfirst hmt hma
    cases os with
    | nil => simp at hj
    | cons o os =>
      cases ps with
      | nil => simp at hj'
      | cons p ps =>
        have hhead := hfirst 0 (by omega) (by simp) (by simp)
        simp only [List.getElem_cons_zero] at hhead
        have hstep : checkOutputsFrom i (o :: os) (p :: ps) =
            checkOutputsFrom (i + 1) os ps := by
          simp [checkOutputsFrom, hhead.1, hhead.2]
        rw [hstep]
        have hfirst' : ∀ k (hk : k < j) (hko : k < os.length) (hkp : k < ps.length),
            os[k].token = ps[k].token ∧ os[k].amount = ps[k].amount := by
          intro k hk hko hkp
          have := hfirst (k + 1) (by omega) (by simpa using hko) (by simpa using hkp)
          simpa using this
        have := ih os ps (i + 1) (by simpa using hj) (by simpa using hj') hfirst'
          (by simpa using hmt) (by simpa using hma)
        have harith : i + 1 + j = i + (j + 1) := by omega
        rw [harith] at this
        simpa using this

/-- Claim C6: for a non-expired fill, validation succeeds exactly when the
outputs and permitted arrays have equal length and agree on token and
amount at every index; a length mismatch or the first index mismatch
produces the corresponding descriptive error, which names the offending
index. -/
theorem validateFill_spec (now : Nat) (fill : SignedFill)
    (hnx : ¬ fill.permit.permit.deadline < now) :
    ((validateFill now fill = Except.ok ()) ↔
      (fill.outputs.length = fill.permit.permit.permitted.length ∧
        ∀ j (hj : j < fill.outputs.length)
          (hj' : j < fill.permit.permit.permitted.length),
          fill.outputs[j].token = fill.permit.permit.permitted[j].token ∧
          fill.outputs[j].amount = fill.permit.permit.permitted[j].amount)) ∧
    (fill.outputs.length ≠ fill.permit.permit.permitted.length →
      validateFill now fill = Except.error
        (lengthMismatchMessage fill.outputs.length
          fill.permit.permit.permitted.length)) ∧
    (fill.outputs.length = fill.permit.permit.permitted.length →
      ∀ j (hj : j < fill.outputs.length)
        (hj' : j < fill.permit.permit.permitted.length),
      (∀ k (hk : k < j) (hko : k < fill.outputs.length)
          (hkp : k < fill.permit.permit.permitted.length),
        fill.outputs[k].token = fill.permit.permit.permitted[k].token ∧
        fill.outputs[k].amount = fill.permit.permit.permitted[k].amount) →
      fill.outputs[j].token ≠ fill.permit.permit.permitted[j].token →
      validateFill now fill = Except.error
        (tokenMismatchMessage j fill.outputs[j].token
          fill.permit.permit.permitted[j].token)) ∧
    (fill.outputs.length = fill.permit.permit.permitted.length →
      ∀ j (hj : j < fill.outputs.length)
        (hj' : j < fill.permit.permit.permitted.length),
      (∀ k (hk : k < j) (hko : k < fill.outputs.length)
          (hkp : k < fill.permit.permit.permitted.length),
        fill.outputs[k].token = fill.permit.permit.permitted[k].token ∧
        fill.outputs[k].amount = fill.permit.permit.permitted[k].amount) →
      fill.outputs[j].token = fill.permit.permit.permitted[j].token →
      fill.outputs[j].amount ≠ fill.permit.permit.permitted[j].amount →
      validateFill now fill = Except.error
        (amountMismatchMessage j fill.outputs[j].amount
          fill.permit.permit.permitted[j].amount)) := by
  refine ⟨?_, ?_, ?_, ?_⟩
  · by_cases hlen : fill.outputs.length = fill.permit.permit.permitted.length
    · have hv : validateFill now fill =
          checkOutputsFrom 0 fill.outputs fill.permit.permit.permitted := by
        unfold validateFill
        rw [if_neg hnx, if_neg (by simpa using hlen)]
      rw [hv, checkOutputsFrom_ok_iff _ _ _ hlen]
      constructor
      · intro h; exact ⟨hlen, h⟩
      · intro h; exact h.2
    · have hv : validateFill now fill = Except.error
          (lengthMismatchMessage fill.outputs.length
            fill.permit.permit.permitted.length) := by
        unfold validateFill
        rw [if_neg hnx, if_pos hlen]
      rw [hv]
      constructor
      · intro h; exact absurd h (by simp)
      · intro h; exact absurd h.1 hlen
  · intro hlen
    unfold validateFill
    rw [if_neg hnx, if_pos hlen]
  · intro hlen j hj hj' hfirst hmt
    have hv : validateFill now fill =
        checkOutputsFrom 0 fill.outputs fill.permit.permit.permitted := by
      unfold validateFill
      rw [if_neg hnx, if_neg (by simpa using hlen)]
    rw [hv]
    have := checkOutputsFrom_token_mismatch j fill.outputs
      fill.permit.permit.permitted 0 hj hj' hfirst hmt
    simpa using this
  · intro hlen j hj hj' hfirst hmt hma
    have hv : validateFill now fill =
        checkOutputsFrom 0 fill.outputs fill.permit.permit.permitted := by
      unfold validateFill
      rw [if_neg hnx, if_neg (by simpa using hlen)]
    rw [hv]
    have := checkOutputsFrom_amount_mismatch j fill.outputs
      fill.permit.permit.permitted 0 hj hj' hfirst hmt hma
    simpa using this

/-- A concrete fill whose second output token (3) differs from the second
permitted token (9); deadline 10. -/
def sampleFillMismatch : SignedFill :=
  ⟨⟨⟨[⟨1, 2⟩, ⟨9, 4⟩], 0, 10⟩, 2, [0]⟩, [⟨1, 2, 0, 0⟩, ⟨3, 4, 0, 0⟩]⟩

/-- A concrete coupled fill; deadline 10. -/
def sampleFillOk : SignedFill :=
  ⟨⟨⟨[⟨1, 2⟩], 0, 10⟩, 2, [0]⟩, [⟨1, 2, 0, 0⟩]⟩

/-- Witness for Claim C6: the mismatching fill fails with the token error
naming index 1, and the coupled fill passes. -/
theorem validateFill_spec_witness :
    validateFill 5 sampleFillMismatch = Except.error (tokenMismatchMessage 1 3 9) ∧
    validateFill 5 sampleFillOk = Except.ok () := by
  constructor
  · have h := (validateFill_spec 5 sampleFillMismatch (by decide)).2.2.1
      (by decide) 1 (by decide) (by decide)
      (by intro k hk hko hkp; interval_cases k; exact ⟨rfl, rfl⟩)
      (by decide)
    simpa using h
  · refine (validateFill_spec 5 sampleFillOk (by decide)).1.mpr
      ⟨by decide, ?_⟩
    intro j hj hj'
    have hj0 : j = 0 := by
      have : j < 1 := by simpa [sampleFillOk] using hj
      omega
    subst hj0
    exact ⟨rfl, rfl⟩

/-- Reduction of `UnsignedOrderState.sign` when the chain is
configured. -/
theorem orderSign_eq (b : UnsignedOrderState) (rand owner : Nat)
    (sig : List Nat) (c oc : Nat)
    (hc : b.chainId = some c) (ho : b.orderContract = some oc) :
    b.sign rand owner sig = Except.ok
      ⟨⟨⟨b.inputs.map (fun p => ⟨p.token, p.amount⟩), b.nonce.getD rand,
          b.deadline⟩, owner, sig⟩, b.outputs⟩ := by
  unfold UnsignedOrderState.sign
  rw [hc, ho]

/-- Reduction of `UnsignedFillState.sign` when the chain is configured. -/
theorem fillSign_eq (b : UnsignedFillState) (rand now owner : Nat)
    (sig : List Nat) (c oc : Nat)
    (hc : b.chainId = some c) (ho : b.orderContract = some oc) :
    b.sign rand now owner sig = Except.ok
      ⟨⟨⟨toTokenPermissionsArray b.outputs, b.nonce.getD rand,
          b.deadline.getD (now + 12)⟩, owner, sig⟩, b.outputs⟩ := by
  unfold UnsignedFillState.sign
  rw [hc, ho]

/-- Counterexample for Claim C5: an order builder whose deadline was never
set signs successfully with deadline 0, instead of requiring an explicit
deadline. -/
theorem orderSign_missing_deadline_cex :
    (((UnsignedOrderState.new.withInput 1 10).withOutput 3 4 5 6).withChain
        ⟨7, 8⟩).sign 21 22 [9] =
      Except.ok ⟨⟨⟨[⟨1, 10⟩], 21, 0⟩, 22, [9]⟩, [⟨3, 4, 5, 6⟩]⟩ := rfl

/-- Claim C5 (amended): when no nonce was set, `sign()` uses the freshly
drawn random nonce, for both orders and fills; a fill with no explicit
deadline gets `now + 12`; an order built without `withDeadline` signs
successfully with deadline 0. -/
theorem sign_defaults_spec :
    (∀ (b : UnsignedOrderState) (rand owner : Nat) (sig : List Nat)
        (so : SignedOrder),
      b.nonce = none → b.sign rand owner sig = Except.ok so →
        so.permit.permit.nonce = rand) ∧
    (∀ (b : UnsignedFillState) (rand now owner : Nat) (sig : List Nat)
        (sf : SignedFill),
      b.nonce = none → b.sign rand now owner sig = Except.ok sf →
        sf.permit.permit.nonce = rand) ∧
    (∀ (b : UnsignedFillState) (rand now owner : Nat) (sig : List Nat)
        (sf : SignedFill),
      b.deadline = none → b.sign rand now owner sig = Except.ok sf →
        sf.permit.permit.deadline = now + 12) ∧
    (∀ (ins : List TokenPermissions) (outs : List Output) (cfg : ChainConfig)
        (rand owner : Nat) (sig : List Nat),
      (((UnsignedOrderState.new.withInputs ins).withOutputs outs).withChain
          cfg).sign rand owner sig =
        Except.ok ⟨⟨⟨ins, rand, 0⟩, owner, sig⟩, outs⟩) := by
  refine ⟨?_, ?_, ?_, ?_⟩
  · intro b rand owner sig so hn hs
    cases hbc : b.chainId with
    | none =>
      unfold UnsignedOrderState.sign at hs
      rw [hbc] at hs
      simp at hs
    | some c =>
      cases hbo : b.orderContract with
      | none =>
        unfold UnsignedOrderState.sign at hs
        rw [hbc, hbo] at hs
        simp at hs
      | some oc =>
        rw [orderSign_eq b rand owner sig c oc hbc hbo] at hs
        injection hs with h
        rw [← h]
        simp [hn]
  · intro b rand now owner sig sf hn hs
    cases hbc : b.chainId with
    | none =>
      unfold UnsignedFillState.sign at hs
      rw [hbc] at hs
      simp at hs
    | some c =>
      cases hbo : b.orderContract with
      | none =>
        unfold UnsignedFillState.sign at hs
        rw [hbc, hbo] at hs
        simp at hs
      | some oc =>
        rw [fillSign_eq b rand now owner sig c oc hbc hbo] at hs
        injection hs with h
        rw [← h]
        simp [hn]
  · intro b rand now owner sig sf hd hs
    cases hbc : b.chainId with
    | none =>
      unfold UnsignedFillState.sign at hs
      rw [hbc] at hs
      simp at hs
    | some c =>
      cases hbo : b.orderContract with
      | none =>
        unfold UnsignedFillState.sign at hs
        rw [hbc, hbo] at hs
        simp at hs
      | some oc =>
        rw [fillSign_eq b rand now owner sig c oc hbc hbo] at hs
        injection hs with h
        rw [← h]
        simp [hd]
  · intro ins outs cfg rand owner sig
    rw [orderSign_eq _ rand owner sig cfg.chainId cfg.orderContract rfl rfl]
    have hmap : ∀ l : List TokenPermissions,
        l.map (fun p => (⟨p.token, p.amount⟩ : TokenPermissions)) = l := by
      intro l
      induction l with
      | nil => rfl
      | cons p t ih => simp [ih]
    simp [UnsignedOrderState.new, UnsignedOrderState.withInputs,
      UnsignedOrderState.withOutputs, UnsignedOrderState.withChain, hmap]

/-- Witness for Claim C5 (amended): a fill builder with no deadline set
defaults to now + 12 = 112, and the nonce to the drawn value 7. -/
theorem sign_defaults_spec_witness :
    (((UnsignedFillState.new.withOutputs [⟨1, 2, 3, 4⟩]).withChain
        ⟨5, 6⟩).sign 7 100 8 [9]) =
      Except.ok ⟨⟨⟨[⟨1, 2⟩], 7, 112⟩, 8, [9]⟩, [⟨1, 2, 3, 4⟩]⟩ ∧
    (⟨⟨⟨[⟨1, 2⟩], 7, 112⟩, 8, [9]⟩, [⟨1, 2, 3, 4⟩]⟩ :
        SignedFill).permit.permit.deadline = 100 + 12 ∧
    (⟨⟨⟨[⟨1, 2⟩], 7, 112⟩, 8, [9]⟩, [⟨1, 2, 3, 4⟩]⟩ :
        SignedFill).permit.permit.nonce = 7 := by
  refine ⟨rfl, ?_, ?_⟩
  · exact sign_defaults_spec.2.2.1
      ((UnsignedFillState.new.withOutputs [⟨1, 2, 3, 4⟩]).withChain ⟨5, 6⟩)
      7 100 8 [9] _ rfl rfl
  · exact sign_defaults_spec.2.1
      ((UnsignedFillState.new.withOutputs [⟨1, 2, 3, 4⟩]).withChain ⟨5, 6⟩)
      7 100 8 [9] _ rfl rfl

theorem checkOutputsFrom_derived (i : Nat) (outs : List Output) :
    checkOutputsFrom i outs (toTokenPermissionsArray outs) = Except.ok () := by
  induction outs generalizing i with
  | nil => rfl
  | cons o t ih =>
    have hcons : toTokenPermissionsArray (o :: t) =
        toTokenPermissions o :: toTokenPermissionsArray t := rfl
    rw [hcons]
    have hstep : checkOutputsFrom i (o :: t)
        (toTokenPermissions o :: toTokenPermissionsArray t) =
        checkOutputsFrom (i + 1) t (toTokenPermissionsArray t) := by
      simp [checkOutputsFrom, toTokenPermissions]
    rw [hstep]
    exact ih (i + 1)

/-- Claim C10: every fill produced by `UnsignedFill.sign` has its permitted
array derived element-wise from its outputs, so the coupling checks of
`validateFill` cannot fail on it — validation succeeds whenever the fill
is not expired. -/
theorem fillSign_coupling (b : UnsignedFillState) (rand now owner : Nat)
    (sig : List Nat) (f : SignedFill)
    (h : b.sign rand now owner sig = Except.ok f) :
    f.permit.permit.permitted.length = f.outputs.length ∧
    (∀ i (hi : i < f.outputs.length) (hi' : i < f.permit.permit.permitted.length),
      f.permit.permit.permitted[i].token = f.outputs[i].token ∧
      f.permit.permit.permitted[i].amount = f.outputs[i].amount) ∧
    (∀ t : Nat, ¬ f.permit.permit.deadline < t →
      validateFill t f = Except.ok ()) := by
  cases hbc : b.chainId with
  | none =>
    unfold UnsignedFillState.sign at h
    rw [hbc] at h
    simp at h
  | some c =>
    cases hbo : b.orderContract with
    | none =>
      unfold UnsignedFillState.sign at h
      rw [hbc, hbo] at h
      simp at h
    | some oc =>
      rw [fillSign_eq b rand now owner sig c oc hbc hbo] at h
      injection h with h
      rw [← h]
      refine ⟨by simp [toTokenPermissionsArray], ?_, ?_⟩
      · intro i hi hi'
        simp only [toTokenPermissionsArray] at hi' ⊢
        simp [toTokenPermissions]
      · intro t ht
        unfold validateFill
        rw [if_neg (by simpa using ht)]
        rw [if_neg (by simp [toTokenPermissionsArray])]
        exact checkOutputsFrom_derived 0 b.outputs

/-- Witness for Claim C10 at a concrete fill builder. -/
theorem fillSign_coupling_witness :
    ((((UnsignedFillState.new.withOutputs [⟨1, 2, 3, 4⟩]).withDeadline
        50).withChain ⟨5, 6⟩).sign 7 100 8 [9]) =
      Except.ok ⟨⟨⟨[⟨1, 2⟩], 7, 50⟩, 8, [9]⟩, [⟨1, 2, 3, 4⟩]⟩ ∧
    validateFill 40 ⟨⟨⟨[⟨1, 2⟩], 7, 50⟩, 8, [9]⟩, [⟨1, 2, 3, 4⟩]⟩ =
      Except.ok () := by
  refine ⟨rfl, ?_⟩
  exact (fillSign_coupling
    (((UnsignedFillState.new.withOutputs [⟨1, 2, 3, 4⟩]).withDeadline
        50).withChain ⟨5, 6⟩) 7 100 8 [9] _ rfl).2.2 40 (by decide)

/-! ### Feasibility evaluator (src/unnamed/part_009) and nonce bitmap
interpretation (src/unnamed/part_008) -/

/-- Issue categories. -/
inductive FeasibilityIssueType where
  | insufficient_balance
  | insufficient_allowance
  | nonce_used
  | deadline_expired
deriving DecidableEq

/-- One issue preventing order feasibility; optional fields model the
omitted properties of the source records. -/
structure FeasibilityIssue where
  type : FeasibilityIssueType
  message : String
  token : Option Nat
  required : Option Nat
  available : Option Nat
deriving DecidableEq

/-- Result of the feasibility check. -/
structure FeasibilityResult where
  feasible : Bool
  issues : List FeasibilityIssue
deriving DecidableEq

/-- External chain state consumed by the evaluator: current time, the
Permit2 nonce bitmap keyed by (owner, wordPosition), ERC-20 balances keyed
by (token, owner) and allowances keyed by (token, owner, spender). -/
structure ChainState where
  now : Nat
  nonceBitmap : Nat → Nat → Nat
  balanceOf : Nat → Nat → Nat
  allowance : Nat → Nat → Nat → Nat

/-- Model of `isNonceUsed`: `wordPosition = nonce >> 8`,
`bitPosition = nonce & 0xff`, then test that bit of the bitmap word. -/
def isNonceUsed (st : ChainState) (owner nonce : Nat) : Bool :=
  Nat.testBit (st.nonceBitmap owner (nonce / 256)) (nonce % 256)

/-- Model of `checkOrderFeasibility`: the deadline and nonce issues first,
then per permitted token a balance issue and an allowance issue, each
carrying token, required and available amounts. The source runs the
per-token reads concurrently and pushes in completion order; this model
fixes array order (balance before allowance within a token, tokens in
array order), which is the only schedule for single-token orders. -/
def checkOrderFeasibility (st : ChainState) (order : SignedOrder) :
    FeasibilityResult :=
  let owner := order.permit.owner
  let tokens := order.permit.permit.permitted
  let deadlineIssues : List FeasibilityIssue :=
    if order.permit.permit.deadline < st.now then
      [⟨.deadline_expired, "Order permit deadline has expired", none, none, none⟩]
    else []
  let nonceIssues : List FeasibilityIssue :=
    if isNonceUsed st owner order.permit.permit.nonce then
      [⟨.nonce_used, "Order permit nonce has already been used", none, none, none⟩]
    else []
  let tokenIssues : List FeasibilityIssue :=
    (tokens.map fun t =>
      (if st.balanceOf t.token owner < t.amount then
        [⟨.insufficient_balance,
          "Insufficient balance for token " ++ toString t.token,
          some t.token, some t.amount, some (st.balanceOf t.token owner)⟩]
      else []) ++
      (if st.allowance t.token owner PERMIT2_ADDRESS < t.amount then
        [⟨.insufficient_allowance,
          "Insufficient Permit2 allowance for token " ++ toString t.token,
          some t.token, some t.amount,
          some (st.allowance t.token owner PERMIT2_ADDRESS)⟩]
      else [])).flatten
  let issues := deadlineIssues ++ nonceIssues ++ tokenIssues
  ⟨issues.length == 0, issues⟩

/-- A one-token order requiring 100 of token 1; deadline 1000, nonce 0. -/
def scenarioOrder : SignedOrder :=
  ⟨⟨⟨[⟨1, 100⟩], 0, 1000⟩, 2, List.replicate 65 0⟩, []⟩

/-- Chain state with balance 50 and ample allowance, clean bitmap, time
0. -/
def stateBalanceShort : ChainState :=
  ⟨0, fun _ _ => 0, fun _ _ => 50, fun _ _ _ => 1000⟩

/-- Chain state with balance 50 and allowance 30. -/
def stateBothShort : ChainState :=
  ⟨0, fun _ _ => 0, fun _ _ => 50, fun _ _ _ => 30⟩

/-- Claim C7: the result satisfies `feasible = issues.isEmpty`; an owner
with balance 50 against a required 100 yields exactly the one
insufficient-balance issue carrying required 100 and available 50; an
owner short on both balance and allowance yields exactly the two issues,
one of each kind. -/
theorem checkOrderFeasibility_spec :
    (∀ (st : ChainState) (order : SignedOrder),
      (checkOrderFeasibility st order).feasible =
        (checkOrderFeasibility st order).issues.isEmpty) ∧
    (checkOrderFeasibility stateBalanceShort scenarioOrder).issues =
      [⟨.insufficient_balance, "Insufficient balance for token 1",
        some 1, some 100, some 50⟩] ∧
    (checkOrderFeasibility stateBalanceShort scenarioOrder).feasible = false ∧
    (checkOrderFeasibility stateBothShort scenarioOrder).issues =
      [⟨.insufficient_balance, "Insufficient balance for token 1",
        some 1, some 100, some 50⟩,
       ⟨.insufficient_allowance, "Insufficient Permit2 allowance for token 1",
        some 1, some 100, some 30⟩] ∧
    (checkOrderFeasibility stateBothShort scenarioOrder).feasible = false := by
  refine ⟨?_, by decide, by decide, by decide, by decide⟩
  intro st order
  have hlist : ∀ l : List FeasibilityIssue, (l.length == 0) = l.isEmpty := by
    intro l
    cases l <;> rfl
  unfold checkOrderFeasibility
  dsimp only
  exact hlist _

/-! ### JSON serialization (src/types/serialization.ts)

`viem`'s `toHex` on a bigint produces "0x" followed by the minimal
lowercase hex digits ("0x0" for zero); `fromHex(_, "bigint")` parses it
back. -/

/-- Lowercase hex digit character for a value below 16. -/
def hexDigitChar (d : Nat) : Char :=
  if d < 10 then Char.ofNat (48 + d) else Char.ofNat (87 + d)

/-- Hex digits of `n`, least significant first; empty for zero. -/
def natToHexRev (n : Nat) : List Char :=
  if h : n = 0 then []
  else hexDigitChar (n % 16) :: natToHexRev (n / 16)
termination_by n
decreasing_by exact Nat.div_lt_self (Nat.pos_of_ne_zero h) (by norm_num)

/-- Model of `toHex` on a non-negative bigint. -/
def toHex (n : Nat) : String :=
  "0x" ++ String.mk (if n = 0 then ['0'] else (natToHexRev n).reverse)

/-- Numeric value of a hex digit character (both cases accepted, as
`BigInt("0x…")` does). -/
def hexDigitVal (c : Char) : Nat :=
  if 48 ≤ c.toNat ∧ c.toNat ≤ 57 then c.toNat - 48
  else if 97 ≤ c.toNat ∧ c.toNat ≤ 102 then c.toNat - 87
  else if 65 ≤ c.toNat ∧ c.toNat ≤ 70 then c.toNat - 55
  else 0

/-- Big-endian value of a hex digit string. -/
def hexCharsToNat (cs : List Char) : Nat :=
  cs.foldl (fun acc c => acc * 16 + hexDigitVal c) 0

/-- Model of `fromHex(_, "bigint")`: strip the 0x prefix and parse. -/
def fromHex (s : String) : Nat :=
  hexCharsToNat (s.toList.drop 2)

theorem hexDigitVal_hexDigitChar (d : Nat) (h : d < 16) :
    hexDigitVal (hexDigitChar d) = d := by
  interval_cases d <;> decide

theorem hexCharsToNat_append_singleton (xs : List Char) (c : Char) :
    hexCharsToNat (xs ++ [c]) = hexCharsToNat xs * 16 + hexDigitVal c := by
  unfold hexCharsToNat
  rw [List.foldl_append]
  rfl

theorem hexCharsToNat_natToHexRev (n : Nat) :
    hexCharsToNat (natToHexRev n).reverse = n := by
  induction n using Nat.strong_induction_on with
  | _ n ih =>
    by_cases h : n = 0
    · subst h
      rw [natToHexRev]
      rfl
    · rw [natToHexRev]
      rw [dif_neg h]
      rw [List.reverse_cons, hexCharsToNat_append_singleton,
        ih (n / 16) (Nat.div_lt_self (Nat.pos_of_ne_zero h) (by norm_num)),
        hexDigitVal_hexDigitChar _ (Nat.mod_lt _ (by norm_num))]
      omega

theorem fromHex_toHex (n : Nat) : fromHex (toHex n) = n := by
  unfold toHex fromHex
  by_cases h : n = 0
  · subst h
    decide
  · rw [if_neg h]
    have hlist : ("0x" ++ String.mk (natToHexRev n).reverse).toList =
        '0' :: 'x' :: (natToHexRev n).reverse := rfl
    rw [hlist]
    have hdrop : ('0' :: 'x' :: (natToHexRev n).reverse).drop 2 =
        (natToHexRev n).reverse := rfl
    rw [hdrop, hexCharsToNat_natToHexRev]

/-- Serialized `TokenPermissions`: the amount as a hex string. -/
structure SerializedTokenPermissions where
  token : Nat
  amount : String
deriving DecidableEq

/-- Serialized `Output`. -/
structure SerializedOutput where
  token : Nat
  amount : String
  recipient : Nat
  chainId : Nat
deriving DecidableEq

/-- Serialized `PermitBatchTransferFrom`. -/
structure SerializedPermitBatchTransferFrom where
  permitted : List SerializedTokenPermissions
  nonce : String
  deadline : String
deriving DecidableEq

/-- Serialized `Permit2Batch`; owner and signature pass through. -/
structure SerializedPermit2Batch where
  permit : SerializedPermitBatchTransferFrom
  owner : Nat
  signature : List Nat
deriving DecidableEq

/-- Serialized `SignedOrder` (src/types/order.ts). -/
structure SerializedSignedOrder where
  permit : SerializedPermit2Batch
  outputs : List SerializedOutput
deriving DecidableEq

/-- Model of `serializeOrder`: every uint256 field becomes a hex string;
addresses and the signature pass through. -/
def serializeOrder (o : SignedOrder) : SerializedSignedOrder :=
  ⟨⟨⟨o.permit.permit.permitted.map (fun p => ⟨p.token, toHex p.amount⟩),
      toHex o.permit.permit.nonce, toHex o.permit.permit.deadline⟩,
    o.permit.owner, o.permit.signature⟩,
   o.outputs.map (fun t => ⟨t.token, toHex t.amount, t.recipient, t.chainId⟩)⟩

/-- Model of `deserializeOrder`: parse every hex-string field back. -/
def deserializeOrder (raw : SerializedSignedOrder) : SignedOrder :=
  ⟨⟨⟨raw.permit.permit.permitted.map (fun p => ⟨p.token, fromHex p.amount⟩),
      fromHex raw.permit.permit.nonce, fromHex raw.permit.permit.deadline⟩,
    raw.permit.owner, raw.permit.signature⟩,
   raw.outputs.map (fun t => ⟨t.token, fromHex t.amount, t.recipient, t.chainId⟩)⟩

/-- Claim C8: deserialization undoes serialization on every signed order,
in particular at the boundary amounts 0 and 2^256 - 1. -/
theorem serializeOrder_roundTrip :
    (∀ o : SignedOrder, deserializeOrder (serializeOrder o) = o) ∧
    deserializeOrder (serializeOrder
        ⟨⟨⟨[⟨1, 0⟩, ⟨2, 2 ^ 256 - 1⟩], 2 ^ 256 - 1, 0⟩, 3,
          List.replicate 65 0⟩, [⟨4, 2 ^ 256 - 1, 5, 6⟩]⟩) =
      ⟨⟨⟨[⟨1, 0⟩, ⟨2, 2 ^ 256 - 1⟩], 2 ^ 256 - 1, 0⟩, 3,
        List.replicate 65 0⟩, [⟨4, 2 ^ 256 - 1, 5, 6⟩]⟩ := by
  have huniv : ∀ o : SignedOrder, deserializeOrder (serializeOrder o) = o := by
    intro o
    unfold serializeOrder deserializeOrder
    simp only [List.map_map, Function.comp_def, fromHex_toHex]
    have hperm : ∀ l : List TokenPermissions,
        l.map (fun p => (⟨p.token, p.amount⟩ : TokenPermissions)) = l := by
      intro l
      induction l with
      | nil => rfl
      | cons p t ih => simp [ih]
    have houts : ∀ l : List Output,
        l.map (fun t => (⟨t.token, t.amount, t.recipient, t.chainId⟩ : Output)) = l := by
      intro l
      induction l with
      | nil => rfl
      | cons p t ih => simp [ih]
    rw [hperm, houts]
  exact ⟨huniv, huniv _⟩

/-! ### Seed-derived nonces (src/unnamed/part_008) -/

/-- The union type `string | number | bigint` of `nonceFromSeed`'s
parameter; TypeScript numbers in seed position are integral, so both
numeric alternatives carry an integer. -/
inductive NonceSeed where
  | str (s : String)
  | num (n : Int)
  | big (n : Int)
deriving DecidableEq

/-- Model of the seed stringification: strings pass through, numbers and
bigints become their decimal form via `toString()`. -/
def seedToString : NonceSeed → String
  | .str s => s
  | .num n => toString n
  | .big n => toString n

/-- Model of `nonceFromSeed`: keccak256 of the UTF-8 seed string, read as
a uint256. -/
def nonceFromSeed (keccak : List Nat → List Nat) (seed : NonceSeed) : Nat :=
  bytesToNat (keccak (utf8Bytes (seedToString seed)))

/-- Claim C9: `nonceFromSeed` is deterministic with values in [0, 2^256);
a number seed and a bigint seed hash exactly as the string of their
decimal form does; the empty-string seed is a well-defined hash of the
empty byte string. -/
theorem nonceFromSeed_spec (keccak : List Nat → List Nat)
    (hk : ∀ bs, (keccak bs).length = 32 ∧ ∀ b ∈ keccak bs, b < 256) :
    (∀ seed, nonceFromSeed keccak seed < 2 ^ 256) ∧
    (∀ n : Int, nonceFromSeed keccak (.num n) =
        nonceFromSeed keccak (.str (toString n)) ∧
      nonceFromSeed keccak (.big n) =
        nonceFromSeed keccak (.str (toString n))) ∧
    (∀ s₁ s₂ : NonceSeed, seedToString s₁ = seedToString s₂ →
      nonceFromSeed keccak s₁ = nonceFromSeed keccak s₂) ∧
    nonceFromSeed keccak (.str "") = bytesToNat (keccak (utf8Bytes "")) := by
  refine ⟨?_, fun n => ⟨rfl, rfl⟩, ?_, rfl⟩
  · intro seed
    have h := hk (utf8Bytes (seedToString seed))
    have hlt := bytesToNat_lt _ h.2
    rw [h.1] at hlt
    rw [two_pow_256_eq_256_pow_32]
    exact hlt
  · intro s₁ s₂ h
    unfold nonceFromSeed
    rw [h]

/-- Witness for Claim C9: under a concrete 32-byte digest function, the
number seed 42 hashes as the string seed "42" does, and the empty-string
seed's nonce is in range. -/
theorem nonceFromSeed_spec_witness :
    nonceFromSeed testKeccak (.num 42) = nonceFromSeed testKeccak (.str "42") ∧
    nonceFromSeed testKeccak (.str "") < 2 ^ 256 := by
  have h := nonceFromSeed_spec testKeccak
    (fun bs => ⟨testKeccak_length bs, testKeccak_bytes_lt bs⟩)
  constructor
  · have h42 := (h.2.1 42).1
    have hrepr : toString (42 : Int) = "42" := rfl
    rw [hrepr] at h42
    exact h42
  · exact h.1 _

end Ts
